import Mathlib

/-!
Verification development for the parallax operator (github.com/matanryngler/parallax).

This file shallowly embeds the reconciliation core of the repository:
the One-Shot fan-out reconciler (`ListJobReconciler.Reconcile`,
internal/controller/listjob_controller.go), the Recurring fan-out reconciler
(`ListCronJobReconciler.Reconcile` and `findObjectsForConfigMap`), and the
item-resolution helpers of the `ListSource` reconciler.  The Kubernetes
control plane is modelled as an in-memory keyed store with the API server's
finalizer-aware delete/update semantics; each Go reconciler becomes a pure
Lean function from a cluster state to a cluster state plus an outcome
(the pair `(ctrl.Result, error)`).

Strings are modelled by Lean `String` (a structure over `List Char`), and the
Go string functions used by the controllers (`strings.Split`, `strings.Join`,
`strings.TrimSpace` with single-character separators) are embedded as
character-list operations `goSplit`, `goJoin`, `goTrimSpace`.
-/

namespace Parallax

/-! ## Go string operations

The controllers only ever split and join on single-character separators
(`","` in listjob_controller.go, `"\n"` in the ListCronJob controller), so
`strings.Split`/`strings.Join` are embedded at character granularity.  Both
separators are ASCII and hence cannot occur inside a multi-byte UTF-8 rune,
so character-level splitting agrees with Go's byte-level splitting. -/

/-- Embedding of Go `strings.Split(s, sep)` for a single-character separator,
on the character list.  Go returns `[""]` for the empty string, which the
`[[]]` base case mirrors. -/
def splitOnChar (sep : Char) : List Char → List (List Char)
  | [] => [[]]
  | c :: cs =>
    match splitOnChar sep cs with
    | [] => [[]]
    | g :: gs => if c = sep then [] :: g :: gs else (c :: g) :: gs

/-- Embedding of Go `strings.Join(xs, sep)` for a single-character separator,
on character lists. -/
def joinChar (sep : Char) : List (List Char) → List Char
  | [] => []
  | [x] => x
  | x :: y :: rest => x ++ sep :: joinChar sep (y :: rest)

/-- Go `strings.Split` on `String`, single-character separator. -/
def goSplit (s : String) (sep : Char) : List String :=
  (splitOnChar sep s.data).map String.mk

/-- Go `strings.Join` on `String`, single-character separator. -/
def goJoin (xs : List String) (sep : Char) : String :=
  String.mk (joinChar sep (xs.map String.data))

/-- Drop whitespace from both ends of a character list. -/
def trimBoth (l : List Char) : List Char :=
  ((l.dropWhile Char.isWhitespace).reverse.dropWhile Char.isWhitespace).reverse

/-- Embedding of Go `strings.TrimSpace` (the items handled by the claims are
ASCII, where `Char.isWhitespace` and Go `unicode.IsSpace` agree). -/
def goTrimSpace (s : String) : String :=
  String.mk (trimBoth s.data)

theorem splitOnChar_ne_nil (sep : Char) (l : List Char) : splitOnChar sep l ≠ [] := by
  cases l with
  | nil => simp [splitOnChar]
  | cons c cs =>
    simp only [splitOnChar]
    cases splitOnChar sep cs with
    | nil => simp
    | cons g gs =>
      by_cases h : c = sep <;> simp [h]

/-- Splitting a separator-free chunk yields exactly that chunk. -/
theorem splitOnChar_of_not_mem (sep : Char) (l : List Char) (h : sep ∉ l) :
    splitOnChar sep l = [l] := by
  induction l with
  | nil => rfl
  | cons c cs ih =>
    simp only [List.mem_cons, not_or] at h
    simp only [splitOnChar, ih h.2]
    have hc : ¬ c = sep := fun hcs => h.1 hcs.symm
    simp [hc]

/-- Splitting after a separator-free chunk followed by the separator peels off
that chunk. -/
theorem splitOnChar_append (sep : Char) (x rest : List Char) (hx : sep ∉ x) :
    splitOnChar sep (x ++ sep :: rest) = x :: splitOnChar sep rest := by
  induction x with
  | nil =>
    simp only [List.nil_append, splitOnChar]
    cases hr : splitOnChar sep rest with
    | nil => exact absurd hr (splitOnChar_ne_nil sep rest)
    | cons g gs => simp
  | cons c cs ih =>
    simp only [List.mem_cons, not_or] at hx
    have hc : ¬ c = sep := fun hcs => hx.1 hcs.symm
    rw [List.cons_append]
    simp only [splitOnChar]
    rw [ih hx.2]
    simp [hc]

/-- Round trip: joining separator-free chunks and splitting again recovers the
chunks (for a nonempty chunk list, matching Go where `Split` never returns an
empty slice). -/
theorem splitOnChar_joinChar (sep : Char) (l : List (List Char)) (hne : l ≠ [])
    (hfree : ∀ x ∈ l, sep ∉ x) :
    splitOnChar sep (joinChar sep l) = l := by
  induction l with
  | nil => exact absurd rfl hne
  | cons x xs ih =>
    cases xs with
    | nil =>
      simp only [joinChar]
      exact splitOnChar_of_not_mem sep x (hfree x (by simp))
    | cons y ys =>
      have hx : sep ∉ x := hfree x (by simp)
      simp only [joinChar]
      rw [splitOnChar_append sep x (joinChar sep (y :: ys)) hx]
      rw [ih (by simp) (fun z hz => hfree z (List.mem_cons_of_mem x hz))]

theorem goSplit_goJoin (sep : Char) (xs : List String) (hne : xs ≠ [])
    (hfree : ∀ x ∈ xs, sep ∉ x.data) :
    goSplit (goJoin xs sep) sep = xs := by
  unfold goSplit goJoin
  rw [splitOnChar_joinChar sep (xs.map String.data)
    (by simpa using hne)
    (by intro z hz; obtain ⟨w, hw, rfl⟩ := List.mem_map.mp hz; exact hfree w hw)]
  rw [List.map_map]
  have : (String.mk ∘ String.data) = id := by
    funext s; rfl
  rw [this, List.map_id]

/-- A string whose character list has no surrounding whitespace is fixed by
`goTrimSpace`. -/
theorem goTrimSpace_eq_self (s : String) (h : trimBoth s.data = s.data) :
    goTrimSpace s = s := by
  unfold goTrimSpace
  rw [h]

/-! ## Index-lookup semantics of the init containers

The One-Shot controller's init container runs
`cut -d',' -f$((JOB_COMPLETION_INDEX+1)) /list/items.txt` over the rendered
comma-joined file; the Recurring controller's init container runs
`sed -n "$((JOB_COMPLETION_INDEX+1))p"` over the newline-joined file.  Both
shell pipelines are embedded by their effect on the file contents, with the
`+1` shift folded in so both functions take the 0-based completion index. -/

/-- Semantics of `cut -d',' -fN` (with `N = idx+1`) on a single-line file:
if the line contains no delimiter, `cut` outputs the whole line for any
requested field; otherwise it outputs the `N`-th comma-separated field, or the
empty string when the field is out of range. -/
def cutCommaField (line : String) (idx : Nat) : String :=
  let fields := goSplit line ','
  if fields.length ≤ 1 then line else fields.getD idx ""

/-- Semantics of `sed -n "Np"` (with `N = idx+1`) piped from the file
contents: it prints the `N`-th line, or nothing when out of range. -/
def sedLineNumber (content : String) (idx : Nat) : String :=
  (goSplit content '\n').getD idx ""

/-! ## Data model (api/v1alpha1)

The structures below embed the fields of the CRD types that the reconcilers
read or write.  `ResourceRequirements` quantities, label selectors and other
platform plumbing that no claim touches are omitted.  `metav1.Duration` and
timestamps are modelled as abstract `Nat` time units. -/

/-- JobTemplateSpec from api/v1alpha1/listjob_types.go (resource
requirements omitted: no controller logic inspects them). -/
structure JobTemplateSpec where
  image : String
  command : List String
  envName : String
  deriving Repr, DecidableEq

/-- ListJobSpec from api/v1alpha1/listjob_types.go. -/
structure ListJobSpec where
  listSourceRef : String
  staticList : List String
  parallelism : Int
  template : JobTemplateSpec
  ttlSecondsAfterFinished : Option Int
  deleteAfter : Option Nat
  deriving Repr, DecidableEq

/-- A stored ListJob object: the metadata fields the controller reads
(creation timestamp, deletion timestamp, finalizers) plus its spec.
The object's name and namespace are the key under which it is stored. -/
structure ListJobObj where
  creationTimestamp : Nat
  deletionTimestamp : Option Nat
  finalizers : List String
  spec : ListJobSpec
  deriving Repr, DecidableEq

/-- ListCronJobSpec: the fields of the ListCronJob CRD read by the
ListCronJob controller (source reference, static list, parallelism, template,
TTL, plus the CronJob scheduling fields it copies through). -/
structure ListCronJobSpec where
  listSourceRef : String
  staticList : List String
  parallelism : Int
  template : JobTemplateSpec
  ttlSecondsAfterFinished : Option Int
  schedule : String
  concurrencyPolicy : String
  startingDeadlineSeconds : Option Int
  successfulJobsHistoryLimit : Option Int
  failedJobsHistoryLimit : Option Int
  suspend : Option Bool
  deriving Repr, DecidableEq

/-- A stored ListCronJob object. -/
structure ListCronJobObj where
  deletionTimestamp : Option Nat
  finalizers : List String
  spec : ListCronJobSpec
  deriving Repr, DecidableEq

/-- A stored ConfigMap: its data plus the resource version the API server
assigned (`none` models an in-memory object whose ResourceVersion string is
still empty, i.e. never written back by a create). -/
structure ConfigMapObj where
  rv : Option Nat
  data : List (String × String)
  deriving Repr, DecidableEq

/-- Go map indexing `data["items"]` returns the zero value `""` for a
missing key. -/
def lookupData (data : List (String × String)) (key : String) : String :=
  match data.find? (fun p => p.1 == key) with
  | some p => p.2
  | none => ""

/-- batchv1 CompletionMode. -/
inductive CompletionMode where
  | nonIndexed
  | indexed
  deriving Repr, DecidableEq

/-- Which init-container index-lookup pipeline a built Job carries:
the One-Shot controller's `cut -d','` field lookup or the Recurring
controller's `sed -n Np` line lookup (see `cutCommaField` and
`sedLineNumber` for their semantics). -/
inductive LookupKind where
  | cutComma
  | sedLine
  deriving Repr, DecidableEq

/-- The batchv1 JobSpec fields the controllers set, together with the pieces
of the pod template that the claims inspect: the init container's lookup
pipeline and env-var name, the main command string, and the pod template
annotations (set only by the ListCronJob update path). -/
structure JobObj where
  parallelism : Int
  completions : Int
  completionMode : CompletionMode
  ttlSecondsAfterFinished : Option Int
  initLookup : LookupKind
  initEnvName : String
  image : String
  mainCommand : String
  templateAnnotations : List (String × String)
  deriving Repr, DecidableEq

/-- The batchv1 CronJobSpec fields the ListCronJob controller sets, plus the
metadata labels it stamps on the CronJob. -/
structure CronJobObj where
  schedule : String
  concurrencyPolicy : String
  startingDeadlineSeconds : Option Int
  successfulJobsHistoryLimit : Option Int
  failedJobsHistoryLimit : Option Int
  suspend : Option Bool
  jobTemplate : JobObj
  labels : List (String × String)
  deriving Repr, DecidableEq

/-! ## The keyed object store

Each kind lives in an association list keyed by `(namespace, name)`.
`aget`/`aput`/`adel` model the API server's get, create-or-update and
delete verbs on a single kind. -/

/-- Object key: namespace paired with name. -/
abbrev Key := String × String

/-- A store for one object kind. -/
abbrev Store (V : Type) := List (Key × V)

/-- Get by key. -/
def aget {V : Type} : Store V → Key → Option V
  | [], _ => none
  | p :: ps, k => if p.1 = k then some p.2 else aget ps k

/-- Put by key: replace the first entry with this key, or append. -/
def aput {V : Type} : Store V → Key → V → Store V
  | [], k, v => [(k, v)]
  | p :: ps, k, v => if p.1 = k then (k, v) :: ps else p :: aput ps k v

/-- Delete by key (removes every entry with this key). -/
def adel {V : Type} : Store V → Key → Store V
  | [], _ => []
  | p :: ps, k => if p.1 = k then adel ps k else p :: adel ps k

theorem aget_aput_self {V : Type} (l : Store V) (k : Key) (v : V) :
    aget (aput l k v) k = some v := by
  induction l with
  | nil => simp [aget, aput]
  | cons p ps ih =>
    by_cases h : p.1 = k
    · simp [aget, aput, h]
    · simp [aget, aput, h, ih]

theorem aget_aput_ne {V : Type} (l : Store V) (k k' : Key) (v : V) (h : k' ≠ k) :
    aget (aput l k v) k' = aget l k' := by
  induction l with
  | nil => simp [aget, aput, Ne.symm h]
  | cons p ps ih =>
    by_cases hp : p.1 = k
    · subst hp
      simp [aget, aput, Ne.symm h]
    · by_cases hp' : p.1 = k'
      · simp [aget, aput, hp, hp', h]
      · simp [aget, aput, hp, hp', ih]

theorem aget_adel_self {V : Type} (l : Store V) (k : Key) :
    aget (adel l k) k = none := by
  induction l with
  | nil => simp [aget, adel]
  | cons p ps ih =>
    by_cases h : p.1 = k
    · simp [adel, h, ih]
    · simp [aget, adel, h, ih]

theorem aget_adel_ne {V : Type} (l : Store V) (k k' : Key) (h : k' ≠ k) :
    aget (adel l k) k' = aget l k' := by
  induction l with
  | nil => simp [adel]
  | cons p ps ih =>
    by_cases hp : p.1 = k
    · subst hp
      simp [aget, adel, Ne.symm h, ih]
    · by_cases hp' : p.1 = k'
      · simp [aget, adel, hp, hp', h]
      · simp [aget, adel, hp, hp', ih]

/-- Number of entries stored under a key (used to state that exactly one
Job and one ConfigMap exist after reconciliation). -/
def countKey {V : Type} : Store V → Key → Nat
  | [], _ => 0
  | p :: ps, k => (if p.1 = k then 1 else 0) + countKey ps k

theorem countKey_aput_of_aget_none {V : Type} (l : Store V) (k : Key) (v : V)
    (h : aget l k = none) : countKey (aput l k v) k = 1 := by
  induction l with
  | nil => simp [countKey, aput]
  | cons p ps ih =>
    by_cases hp : p.1 = k
    · exfalso
      simp [aget, hp] at h
    · have h' : aget ps k = none := by
        simpa [aget, hp] using h
      simp [countKey, aput, hp, ih h']

/-! ## Cluster state and API-server semantics

The cluster holds one store per kind, a resource-version counter and the
current wall-clock time (read by `metav1.Now()` in the expiry check).
Deleting a custom object that still carries finalizers only stamps its
deletion timestamp; an update that leaves a deletion-timestamped object with
no finalizers completes the deletion — the two-phase semantics the
controllers rely on. -/

/-- The modelled control-plane state. -/
structure Cluster where
  listJobs : Store ListJobObj
  listCronJobs : Store ListCronJobObj
  configMaps : Store ConfigMapObj
  jobs : Store JobObj
  cronJobs : Store CronJobObj
  nextRV : Nat
  now : Nat
  deriving Repr, DecidableEq

/-- Outcome of one reconcile pass: the `(ctrl.Result, error)` pair.
`ok requeue requeueAfter` is a nil error with the given result;
`err` is a non-nil error (controller-runtime then requeues with backoff). -/
inductive Outcome where
  | ok (requeue : Bool) (requeueAfter : Option Nat)
  | err (msg : String)
  deriving Repr, DecidableEq

/-- Whether the outcome is a returned (retryable) error. -/
def Outcome.isErr : Outcome → Bool
  | .ok _ _ => false
  | .err _ => true

/-- The finalizer token of the ListJob controller
(`listjob.batchops.io/finalizer`). -/
def listJobFinalizerToken : String :=
  "listjob.batchops.io/finalizer"

/-- The finalizer token of the ListCronJob controller
(`listcronjob.batchops.io/finalizer`). -/
def listCronJobFinalizerToken : String :=
  "listcronjob.batchops.io/finalizer"

/-- Name of the per-job ConfigMap: `fmt.Sprintf("%s-list", name)`. -/
def childCMName (name : String) : String :=
  name ++ "-list"

/-- API-server semantics of updating a ListJob: persisting an object that has
a deletion timestamp and no remaining finalizers completes its deletion. -/
def putListJob (c : Cluster) (k : Key) (lj : ListJobObj) : Cluster :=
  if lj.deletionTimestamp.isSome ∧ lj.finalizers = [] then
    { c with listJobs := adel c.listJobs k }
  else
    { c with listJobs := aput c.listJobs k lj }

/-- API-server semantics of deleting a ListJob: with finalizers present the
object only gets its deletion timestamp stamped; otherwise it is removed. -/
def deleteListJob (c : Cluster) (k : Key) : Cluster :=
  match aget c.listJobs k with
  | none => c
  | some lj =>
    if lj.finalizers = [] then
      { c with listJobs := adel c.listJobs k }
    else
      { c with listJobs := aput c.listJobs k { lj with deletionTimestamp := some c.now } }

/-- Same update semantics for ListCronJob objects. -/
def putListCronJob (c : Cluster) (k : Key) (lcj : ListCronJobObj) : Cluster :=
  if lcj.deletionTimestamp.isSome ∧ lcj.finalizers = [] then
    { c with listCronJobs := adel c.listCronJobs k }
  else
    { c with listCronJobs := aput c.listCronJobs k lcj }

/-! ## One-Shot fan-out reconciler

Embedding of `ListJobReconciler.Reconcile`
(internal/controller/listjob_controller.go), split into the same phases the
Go function runs through: deletion/finalizer handling, expiry check, item
resolution, ConfigMap render + create, Job build + create. -/

/-- The item-string-to-list translation the ListJob controller applies to a
ledger `items` value: `strings.Split(listStr, ",")`. -/
def listJobLedgerItems (itemsStr : String) : List String :=
  goSplit itemsStr ','

/-- Item resolution of the ListJob controller: a non-empty inline static list
wins; otherwise the referenced ledger ConfigMap is fetched and its `items`
value split on `","` (a missing ConfigMap is the returned `Get` error). -/
def listJobResolveItems (c : Cluster) (ns : String) (lj : ListJobObj) :
    Except String (List String) :=
  if lj.spec.staticList.length > 0 then
    .ok lj.spec.staticList
  else
    match aget c.configMaps (ns, lj.spec.listSourceRef) with
    | none => .error "Failed to fetch ListSource ConfigMap"
    | some cm => .ok (listJobLedgerItems (lookupData cm.data "items"))

/-- The data rendered into the per-job ConfigMap by the ListJob controller:
key `items.txt`, comma-joined. -/
def listJobRenderData (list : List String) : List (String × String) :=
  [("items.txt", goJoin list ',')]

/-- Whether the `DeleteAfter` expiry lies strictly in the past at reconcile
time (`metav1.Now().After(creationTimestamp.Add(duration))`). -/
def expiryPast (c : Cluster) (lj : ListJobObj) : Bool :=
  match lj.spec.deleteAfter with
  | some d => decide (c.now > lj.creationTimestamp + d)
  | none => false

/-- The Job object built by the ListJob controller: parallelism from the
spec, completions = item count, indexed completion mode, TTL passed through,
`cut`-based init lookup with the (defaulted) env-var name, and the main
command prefixed by sourcing the shared env script. -/
def buildListJobJob (lj : ListJobObj) (list : List String) : JobObj :=
  let envName := if lj.spec.template.envName = "" then "ITEM" else lj.spec.template.envName
  { parallelism := lj.spec.parallelism
    completions := (list.length : Int)
    completionMode := .indexed
    ttlSecondsAfterFinished := lj.spec.ttlSecondsAfterFinished
    initLookup := .cutComma
    initEnvName := envName
    image := lj.spec.template.image
    mainCommand := ". /shared/env.sh && " ++ goJoin lj.spec.template.command ' '
    templateAnnotations := [] }

/-- Materialization phase of the ListJob controller: resolve the items,
create the per-job ConfigMap (an AlreadyExists create error is swallowed and
the existing ConfigMap is left untouched), create the Job (AlreadyExists
likewise swallowed), and requeue after the `DeleteAfter` duration when one is
configured. -/
def materializeListJob (c : Cluster) (ns name : String) (lj : ListJobObj) :
    Cluster × Outcome :=
  match listJobResolveItems c ns lj with
  | .error e => (c, .err e)
  | .ok list =>
    let cmKey : Key := (ns, childCMName name)
    let c1 :=
      match aget c.configMaps cmKey with
      | none =>
        { c with
          configMaps := aput c.configMaps cmKey ⟨some c.nextRV, listJobRenderData list⟩
          nextRV := c.nextRV + 1 }
      | some _ => c
    let c2 :=
      match aget c1.jobs (ns, name) with
      | none => { c1 with jobs := aput c1.jobs (ns, name) (buildListJobJob lj list) }
      | some _ => c1
    (c2, .ok false lj.spec.deleteAfter)

/-- Reconcile body once the ListJob has been loaded. -/
def reconcileListJobLoaded (c : Cluster) (ns name : String) (lj : ListJobObj) :
    Cluster × Outcome :=
  if lj.deletionTimestamp.isSome then
    if lj.finalizers.contains listJobFinalizerToken then
      let c1 := { c with
        jobs := adel c.jobs (ns, name)
        configMaps := adel c.configMaps (ns, childCMName name) }
      let lj2 := { lj with
        finalizers := lj.finalizers.filter (fun f => !(f == listJobFinalizerToken)) }
      (putListJob c1 (ns, name) lj2, .ok false none)
    else
      (c, .ok false none)
  else if !(lj.finalizers.contains listJobFinalizerToken) then
    let lj2 := { lj with finalizers := lj.finalizers ++ [listJobFinalizerToken] }
    (putListJob c (ns, name) lj2, .ok true none)
  else if expiryPast c lj then
    (deleteListJob c (ns, name), .ok false none)
  else
    materializeListJob c ns name lj

/-- Embedding of `ListJobReconciler.Reconcile`: load the object (a not-found
get is swallowed), then run the loaded body. -/
def reconcileListJob (c : Cluster) (ns name : String) : Cluster × Outcome :=
  match aget c.listJobs (ns, name) with
  | none => (c, .ok false none)
  | some lj => reconcileListJobLoaded c ns name lj

/-! ## Recurring fan-out reconciler

Embedding of `ListCronJobReconciler.Reconcile` and
`ListCronJobReconciler.findObjectsForConfigMap`.  Unlike the ListJob
controller this one splits the ledger on newlines with per-item trimming,
errors on an empty `items` value and on a spec with neither source, updates
an already-existing per-job ConfigMap, and upserts the CronJob, stamping a
`configmap-version` pod-template annotation on the update path. -/

/-- Render the empty resource-version string of an in-memory object that the
client never wrote back (`none`), or the assigned version. -/
def rvString : Option Nat → String
  | none => ""
  | some n => toString n

/-- The item-string-to-list translation the ListCronJob controller applies to
a ledger `items` value: `strings.Split(itemsStr, "\n")` followed by
`strings.TrimSpace` on each item. -/
def listCronJobLedgerItems (itemsStr : String) : List String :=
  (goSplit itemsStr '\n').map goTrimSpace

/-- Item resolution of the ListCronJob controller: non-empty static list
wins; else a non-empty `listSourceRef` is fetched and its `items` value —
required to be non-empty — is split on `"\n"` with each item
whitespace-trimmed; else the spec is rejected. -/
def listCronJobResolveItemsOf (c : Cluster) (ns : String) (lcj : ListCronJobObj) :
    Except String (List String) :=
  if lcj.spec.staticList.length > 0 then
    .ok lcj.spec.staticList
  else if lcj.spec.listSourceRef ≠ "" then
    match aget c.configMaps (ns, lcj.spec.listSourceRef) with
    | none => .error "Failed to get ListSource ConfigMap"
    | some cm =>
      let itemsStr := lookupData cm.data "items"
      if itemsStr = "" then
        .error "ListSource ConfigMap has no items"
      else
        .ok (listCronJobLedgerItems itemsStr)
  else
    .error "either StaticList or ListSourceRef must be specified"

/-- The data rendered into the per-job ConfigMap by the ListCronJob
controller: key `items`, newline-joined. -/
def listCronJobRenderData (list : List String) : List (String × String) :=
  [("items", goJoin list '\n')]

/-- Create-or-update of the per-job ConfigMap.  Besides the new cluster it
returns the ResourceVersion field of the controller's in-memory `jobCm`
object afterwards: a successful create writes the assigned version back into
it, but on the AlreadyExists path the code fetches and updates a separate
`existingCm` object and never refreshes `jobCm`, whose version stays the
empty string (`none`). -/
def upsertJobConfigMap (c : Cluster) (k : Key) (data : List (String × String)) :
    Cluster × Option Nat :=
  match aget c.configMaps k with
  | none =>
    ({ c with
        configMaps := aput c.configMaps k ⟨some c.nextRV, data⟩
        nextRV := c.nextRV + 1 },
      some c.nextRV)
  | some cm =>
    ({ c with
        configMaps := aput c.configMaps k { cm with rv := some c.nextRV, data := data }
        nextRV := c.nextRV + 1 },
      none)

/-- The Job template built by the ListCronJob controller: same shape as the
ListJob one but with the `sed` line lookup and, at build time, no pod
template annotations. -/
def buildListCronJobTemplate (lcj : ListCronJobObj) (list : List String) : JobObj :=
  let envName := if lcj.spec.template.envName = "" then "ITEM" else lcj.spec.template.envName
  { parallelism := lcj.spec.parallelism
    completions := (list.length : Int)
    completionMode := .indexed
    ttlSecondsAfterFinished := lcj.spec.ttlSecondsAfterFinished
    initLookup := .sedLine
    initEnvName := envName
    image := lcj.spec.template.image
    mainCommand := ". /shared/env.sh && " ++ goJoin lcj.spec.template.command ' '
    templateAnnotations := [] }

/-- The desired CronJob object assembled from the ListCronJob spec. -/
def buildCronJob (name : String) (lcj : ListCronJobObj) (list : List String) : CronJobObj :=
  { schedule := lcj.spec.schedule
    concurrencyPolicy := lcj.spec.concurrencyPolicy
    startingDeadlineSeconds := lcj.spec.startingDeadlineSeconds
    successfulJobsHistoryLimit := lcj.spec.successfulJobsHistoryLimit
    failedJobsHistoryLimit := lcj.spec.failedJobsHistoryLimit
    suspend := lcj.spec.suspend
    jobTemplate := buildListCronJobTemplate lcj list
    labels := [("listcronjob", name)] }

/-- Create-or-update of the CronJob: a missing CronJob is created as built
(no template annotations); an existing one has its whole spec replaced —
metadata labels stay as they were — and the pod template annotations set to
`configmap-version = jobCm's ResourceVersion string` (the claimed
revision-forcing stamp). -/
def upsertCronJob (c : Cluster) (k : Key) (desired : CronJobObj)
    (jobCmRV : Option Nat) : Cluster :=
  match aget c.cronJobs k with
  | none => { c with cronJobs := aput c.cronJobs k desired }
  | some existing =>
    let updated := { desired with
      labels := existing.labels
      jobTemplate := { desired.jobTemplate with
        templateAnnotations := [("configmap-version", rvString jobCmRV)] } }
    { c with cronJobs := aput c.cronJobs k updated }

/-- Materialization phase of the ListCronJob controller. -/
def materializeListCronJob (c : Cluster) (ns name : String) (lcj : ListCronJobObj) :
    Cluster × Outcome :=
  match listCronJobResolveItemsOf c ns lcj with
  | .error e => (c, .err e)
  | .ok list =>
    let (c1, jobCmRV) := upsertJobConfigMap c (ns, childCMName name) (listCronJobRenderData list)
    let c2 := upsertCronJob c1 (ns, name) (buildCronJob name lcj list) jobCmRV
    (c2, .ok false none)

/-- Reconcile body once the ListCronJob has been loaded. -/
def reconcileListCronJobLoaded (c : Cluster) (ns name : String) (lcj : ListCronJobObj) :
    Cluster × Outcome :=
  if lcj.deletionTimestamp.isSome then
    if lcj.finalizers.contains listCronJobFinalizerToken then
      let c1 := { c with
        cronJobs := adel c.cronJobs (ns, name)
        configMaps := adel c.configMaps (ns, childCMName name) }
      let lcj2 := { lcj with
        finalizers := lcj.finalizers.filter (fun f => !(f == listCronJobFinalizerToken)) }
      (putListCronJob c1 (ns, name) lcj2, .ok false none)
    else
      (c, .ok false none)
  else if !(lcj.finalizers.contains listCronJobFinalizerToken) then
    let lcj2 := { lcj with finalizers := lcj.finalizers ++ [listCronJobFinalizerToken] }
    (putListCronJob c (ns, name) lcj2, .ok true none)
  else
    materializeListCronJob c ns name lcj

/-- Embedding of `ListCronJobReconciler.Reconcile`. -/
def reconcileListCronJob (c : Cluster) (ns name : String) : Cluster × Outcome :=
  match aget c.listCronJobs (ns, name) with
  | none => (c, .ok false none)
  | some lcj => reconcileListCronJobLoaded c ns name lcj

/-- Embedding of `ListCronJobReconciler.findObjectsForConfigMap`: list all
ListCronJobs in the ConfigMap's namespace and keep those whose
`listSourceRef` names the ConfigMap, as reconcile-request keys. -/
def findObjectsForConfigMap (c : Cluster) (cmNs cmName : String) : List Key :=
  ((c.listCronJobs.filter (fun p => decide (p.1.1 = cmNs))).filter
    (fun p => decide (p.2.spec.listSourceRef = cmName))).map (fun p => p.1)

/-! ## HTTP-API source adaptor

The `ListSourceReconciler` implementation (including `getItemsFromAPI`) is
not among the available source files — only its unit tests
(internal/controller/listsource_controller_unit_test.go) and integration
tests are.  The definitions below are therefore modelled from the spec
(sections 4.1 and 7) and checked against the behaviour those tests pin
down: a non-2xx status is a retryable FetchFailed error carrying the status
code (message `API request failed with status <code>`); on 2xx the JSON body
is evaluated under the configured path expression; an unparsable path
expression is a non-retryable ConfigInvalid error whose message reports
`failed to parse JSONPath expression`. -/

/-- APIAuth from api/v1alpha1 (auth type `basic` or `bearer`, secret
reference with username/password keys). -/
structure APIAuth where
  authType : String
  secretName : String
  usernameKey : String
  passwordKey : String
  deriving Repr, DecidableEq

/-- APIConfig from api/v1alpha1: URL, optional headers, the item-extraction
JSONPath expression, optional auth block. -/
structure APIConfig where
  url : String
  headers : List (String × String)
  jsonPath : String
  auth : Option APIAuth
  deriving Repr, DecidableEq

/-- Error taxonomy of source resolution (spec section 7): `configInvalid` is
non-retryable, `fetchFailed` is retryable. -/
inductive ResolveError where
  | configInvalid (msg : String)
  | fetchFailed (msg : String)
  deriving Repr, DecidableEq

/-- Whether a resolution error is the retryable fetch kind. -/
def ResolveError.isFetchFailed : ResolveError → Bool
  | .configInvalid _ => false
  | .fetchFailed _ => true

/-- A JSON value (the decoded response body). -/
inductive Json where
  | str (s : String)
  | num (n : Int)
  | boolean (b : Bool)
  | null
  | arr (elems : List Json)
  | obj (fields : List (String × Json))
  deriving Repr

/-- One segment of a JSONPath expression: a `.name` field selector, a `[*]`
wildcard over array elements, or a `[i]` element selector. -/
inductive PathSeg where
  | field (name : String)
  | allElems
  | elem (i : Nat)
  deriving Repr, DecidableEq

/-- Modelled from the spec: characters allowed in a `.name` field selector
of the path expression. -/
def identChar (c : Char) : Bool :=
  c.isAlphanum || c == '_' || c == '-'

/-- Modelled from the spec: fueled segment parser for the path expression
after the leading `$` (fuel bounds the remaining input length; each step
consumes at least one character). -/
def parsePathSegs : Nat → List Char → Option (List PathSeg)
  | 0, _ => none
  | _ + 1, [] => some []
  | fuel + 1, '.' :: rest =>
    let name := rest.takeWhile identChar
    let rest' := rest.dropWhile identChar
    if name = [] then none
    else (parsePathSegs fuel rest').map (fun segs => .field (String.mk name) :: segs)
  | fuel + 1, '[' :: '*' :: ']' :: rest =>
    (parsePathSegs fuel rest).map (fun segs => .allElems :: segs)
  | fuel + 1, '[' :: rest =>
    let digits := rest.takeWhile Char.isDigit
    let rest' := rest.dropWhile Char.isDigit
    if digits = [] then none
    else
      match rest' with
      | ']' :: rest2 =>
        (parsePathSegs fuel rest2).map
          (fun segs => .elem (String.toNat! (String.mk digits)) :: segs)
      | _ => none
  | _ + 1, _ => none

/-- Modelled from the spec: parse the configured item-extraction path
expression (`$` root followed by field / wildcard / index segments); `none`
is an unparsable expression. -/
def parseJSONPath (s : String) : Option (List PathSeg) :=
  match s.data with
  | '$' :: rest => parsePathSegs (rest.length + 1) rest
  | _ => none

/-- Evaluate one path segment against one JSON node. -/
def evalSeg (seg : PathSeg) (j : Json) : List Json :=
  match seg, j with
  | .field n, .obj fields =>
    match fields.find? (fun p => p.1 == n) with
    | some p => [p.2]
    | none => []
  | .allElems, .arr elems => elems
  | .elem i, .arr elems =>
    match elems.get? i with
    | some e => [e]
    | none => []
  | _, _ => []

/-- Evaluate a parsed path expression: each segment maps over the current
match set. -/
def evalPath (segs : List PathSeg) (j : Json) : List Json :=
  segs.foldl (fun js seg => (js.map (evalSeg seg)).flatten) [j]

/-- Modelled from the spec: stringify a matched leaf value. -/
def jsonLeafString : Json → String
  | .str s => s
  | .num n => toString n
  | .boolean b => toString b
  | .null => "null"
  | .arr _ => ""
  | .obj _ => ""

/-- An HTTP response as seen by the adaptor: status code and decoded JSON
body. -/
structure HTTPResponse where
  status : Nat
  body : Json
  deriving Repr

/-- Modelled from the spec: `ListSourceReconciler.getItemsFromAPI` (absent
from the available sources).  A non-2xx status is a retryable `fetchFailed`
carrying the status code; on 2xx the configured path expression is parsed —
an unparsable expression is a non-retryable `configInvalid` reporting the
parse failure and yielding no items — and its matches over the body are
stringified in document order. -/
def getItemsFromAPI (cfg : APIConfig) (resp : HTTPResponse) :
    Except ResolveError (List String) :=
  if resp.status < 200 ∨ 300 ≤ resp.status then
    .error (.fetchFailed ("API request failed with status " ++ toString resp.status))
  else
    match parseJSONPath cfg.jsonPath with
    | none =>
      .error (.configInvalid ("failed to parse JSONPath expression: " ++ cfg.jsonPath))
    | some segs =>
      .ok ((evalPath segs resp.body).map jsonLeafString)

/-! ## Claims -/

/-- C1 counterexample: the two fan-out reconcilers do NOT perform the same
item-to-spec translation over a single-comma ledger separator.  On the
ledger `items` value `"a,b"` the One-Shot reconciler resolves the two items
`a` and `b`, while the Recurring reconciler (which splits on newlines)
resolves the single item `a,b`. -/
theorem c1_counterexample :
    listCronJobLedgerItems "a,b" ≠ listJobLedgerItems "a,b" := by
  decide

/-- C1 (amended): the One-Shot reconciler reads the ledger `items` value as
a comma-separated sequence, renders key `items.txt` comma-joined, and its
`cut`-based init lookup assigns item `i` to completion index `i`; the
Recurring reconciler instead reads the ledger newline-separated with
per-item trimming, renders key `items` newline-joined, and its `sed`-based
line lookup assigns item `i` to completion index `i`.  Each reconciler is
internally consistent for its own separator, but the separators differ, so
the two translations disagree on any ledger value containing a comma
(see the counterexample). -/
theorem c1_theorem (l : List String) (hne : l ≠ [])
    (hitems : ∀ x ∈ l, ',' ∉ x.data ∧ '\n' ∉ x.data ∧ trimBoth x.data = x.data) :
    listJobLedgerItems (goJoin l ',') = l ∧
    listCronJobLedgerItems (goJoin l '\n') = l ∧
    listJobRenderData l = [("items.txt", goJoin l ',')] ∧
    listCronJobRenderData l = [("items", goJoin l '\n')] ∧
    (∀ i < l.length, cutCommaField (goJoin l ',') i = l.getD i "") ∧
    (∀ i < l.length, sedLineNumber (goJoin l '\n') i = l.getD i "") := by
  have hsplitC : goSplit (goJoin l ',') ',' = l :=
    goSplit_goJoin ',' l hne (fun x hx => (hitems x hx).1)
  have hsplitN : goSplit (goJoin l '\n') '\n' = l :=
    goSplit_goJoin '\n' l hne (fun x hx => (hitems x hx).2.1)
  refine ⟨hsplitC, ?_, rfl, rfl, ?_, ?_⟩
  · unfold listCronJobLedgerItems
    rw [hsplitN]
    have hm : l.map goTrimSpace = l.map id :=
      List.map_congr_left (fun x hx => goTrimSpace_eq_self x (hitems x hx).2.2)
    rw [hm, List.map_id]
  · intro i hi
    unfold cutCommaField
    rw [hsplitC]
    by_cases hlen : l.length ≤ 1
    · have h1 : l.length = 1 := Nat.le_antisymm hlen (by
        cases l with
        | nil => exact absurd rfl hne
        | cons x xs => simp)
      have hi0 : i = 0 := by omega
      subst hi0
      obtain ⟨x, rfl⟩ : ∃ x, l = [x] := by
        cases l with
        | nil => exact absurd rfl hne
        | cons x xs =>
          cases xs with
          | nil => exact ⟨x, rfl⟩
          | cons y ys => simp at h1
      simp [goJoin, joinChar]
    · simp [hlen]
  · intro i hi
    unfold sedLineNumber
    rw [hsplitN]

/-- C1 witness: instantiation of the amended statement at the item list
`["a", "b", "c"]`, with the lookups evaluated at completion index 1. -/
theorem c1_witness :
    listJobLedgerItems (goJoin ["a", "b", "c"] ',') = ["a", "b", "c"] ∧
    listCronJobLedgerItems (goJoin ["a", "b", "c"] '\n') = ["a", "b", "c"] ∧
    cutCommaField (goJoin ["a", "b", "c"] ',') 1 = "b" ∧
    sedLineNumber (goJoin ["a", "b", "c"] '\n') 1 = "b" := by
  have h := c1_theorem ["a", "b", "c"] (by decide) (by decide)
  exact ⟨h.1, h.2.1, h.2.2.2.2.1 1 (by decide), h.2.2.2.2.2 1 (by decide)⟩

/-- Removing every copy of a token from a finalizer list leaves a list that
does not contain the token (`controllerutil.RemoveFinalizer`). -/
theorem contains_filter_token (l : List String) (t : String) :
    (l.filter (fun f => !(f == t))).contains t = false := by
  simp [List.elem_eq_mem, List.mem_filter]

/-- C2: when a ListJob has its deletion timestamp set and still carries the
finalizer token, one reconcile pass deletes the owned Job and the owned
per-job ConfigMap, then removes the finalizer token and persists that
removal (completing the ListJob's deletion when no other finalizer
remains), and returns without error.  In the resulting state the owned
objects are gone and no stored copy of the ListJob contains the token. -/
theorem c2_theorem (c : Cluster) (ns name : String) (lj : ListJobObj)
    (hget : aget c.listJobs (ns, name) = some lj)
    (hdel : lj.deletionTimestamp.isSome = true)
    (hfin : lj.finalizers.contains listJobFinalizerToken = true) :
    aget (reconcileListJob c ns name).1.jobs (ns, name) = none ∧
    aget (reconcileListJob c ns name).1.configMaps (ns, childCMName name) = none ∧
    (∀ lj', aget (reconcileListJob c ns name).1.listJobs (ns, name) = some lj' →
      lj'.finalizers.contains listJobFinalizerToken = false) ∧
    (reconcileListJob c ns name).2 = .ok false none := by
  simp only [reconcileListJob, hget]
  simp only [reconcileListJobLoaded, hdel, hfin, Bool.not_true, if_true, if_false]
  unfold putListJob
  split
  · refine ⟨aget_adel_self _ _, aget_adel_self _ _, ?_, trivial⟩
    intro lj' hlj'
    rw [aget_adel_self] at hlj'
    cases hlj'
  · refine ⟨aget_adel_self _ _, aget_adel_self _ _, ?_, trivial⟩
    intro lj' hlj'
    rw [aget_aput_self] at hlj'
    cases hlj'
    exact contains_filter_token lj.finalizers listJobFinalizerToken

/-- A small job template used by several concrete scenarios. -/
def sampleTemplate : JobTemplateSpec :=
  { image := "busybox", command := ["echo"], envName := "" }

/-- A stored Job used as the pre-existing owned Job of concrete scenarios. -/
def sampleJob : JobObj :=
  { parallelism := 1, completions := 1, completionMode := .indexed
    ttlSecondsAfterFinished := none, initLookup := .cutComma
    initEnvName := "ITEM", image := "busybox", mainCommand := ""
    templateAnnotations := [] }

/-- A deleting ListJob (deletion timestamp set, finalizer present). -/
def c2ListJob : ListJobObj :=
  { creationTimestamp := 0
    deletionTimestamp := some 5
    finalizers := [listJobFinalizerToken]
    spec := { listSourceRef := "", staticList := ["a"], parallelism := 1
              template := sampleTemplate
              ttlSecondsAfterFinished := none, deleteAfter := none } }

/-- A cluster holding the deleting ListJob plus its owned Job and ConfigMap. -/
def c2Cluster : Cluster :=
  { listJobs := [(("default", "lj"), c2ListJob)]
    listCronJobs := []
    configMaps := [(("default", "lj-list"), { rv := some 1, data := [] })]
    jobs := [(("default", "lj"), sampleJob)]
    cronJobs := [], nextRV := 2, now := 9 }

/-- C2 witness: on the concrete deleting ListJob the reconcile pass removes
the owned Job. -/
theorem c2_witness :
    aget (reconcileListJob c2Cluster "default" "lj").1.jobs ("default", "lj") = none :=
  (c2_theorem c2Cluster "default" "lj" c2ListJob (by decide) (by decide) (by decide)).1

/-- A list that contains a token is nonempty. -/
theorem ne_nil_of_contains (l : List String) (t : String)
    (h : l.contains t = true) : l ≠ [] := by
  intro hnil
  subst hnil
  simp [List.contains] at h

/-- C3: a live ListJob (finalizer present) whose absolute expiry
`creationTimestamp + deleteAfter` lies strictly in the past at reconcile
time is deleted by the pass — its deletion timestamp is stamped, since the
finalizer blocks immediate removal — and the pass returns without creating
anything: the Job, ConfigMap and CronJob stores are exactly those of the
input state. -/
theorem c3_theorem (c : Cluster) (ns name : String) (lj : ListJobObj)
    (hget : aget c.listJobs (ns, name) = some lj)
    (hdts : lj.deletionTimestamp = none)
    (hfin : lj.finalizers.contains listJobFinalizerToken = true)
    (hexp : expiryPast c lj = true) :
    (reconcileListJob c ns name).1.jobs = c.jobs ∧
    (reconcileListJob c ns name).1.configMaps = c.configMaps ∧
    (reconcileListJob c ns name).1.cronJobs = c.cronJobs ∧
    aget (reconcileListJob c ns name).1.listJobs (ns, name) =
      some { lj with deletionTimestamp := some c.now } ∧
    (reconcileListJob c ns name).2 = .ok false none := by
  have hne : lj.finalizers ≠ [] := ne_nil_of_contains _ _ hfin
  simp only [reconcileListJob, hget]
  simp only [reconcileListJobLoaded, hdts, Option.isSome_none, Bool.false_eq_true,
    if_false, hfin, Bool.not_true, hexp, if_true]
  simp only [deleteListJob, hget, hne, if_false]
  exact ⟨trivial, trivial, trivial, aget_aput_self _ _ _, trivial⟩

/-- An expired ListJob: `deleteAfter` set and already past at `now = 9`. -/
def c3ListJob : ListJobObj :=
  { creationTimestamp := 0
    deletionTimestamp := none
    finalizers := [listJobFinalizerToken]
    spec := { listSourceRef := "", staticList := ["a"], parallelism := 1
              template := sampleTemplate
              ttlSecondsAfterFinished := none, deleteAfter := some 3 } }

/-- A cluster holding only the expired ListJob: nothing was materialized. -/
def c3Cluster : Cluster :=
  { listJobs := [(("default", "lj"), c3ListJob)]
    listCronJobs := [], configMaps := [], jobs := [], cronJobs := []
    nextRV := 1, now := 9 }

/-- C3 witness: on the concrete expired ListJob the pass creates no Job and
no ConfigMap (the stores are unchanged and were empty). -/
theorem c3_witness :
    (reconcileListJob c3Cluster "default" "lj").1.jobs = c3Cluster.jobs ∧
    (reconcileListJob c3Cluster "default" "lj").1.configMaps = c3Cluster.configMaps :=
  by
  have h := c3_theorem c3Cluster "default" "lj" c3ListJob
    (by decide) (by decide) (by decide) (by decide)
  exact ⟨h.1, h.2.1⟩

/-- When both owned objects already exist, a reconcile pass of a live,
unexpired, resolvable ListJob changes nothing: both creates observe
"already exists", the conflict is swallowed, and the pass returns without
error. -/
theorem reconcileListJob_noop (c : Cluster) (ns name : String) (lj : ListJobObj)
    (list : List String) (cmv : ConfigMapObj) (jv : JobObj)
    (hget : aget c.listJobs (ns, name) = some lj)
    (hdts : lj.deletionTimestamp = none)
    (hfin : lj.finalizers.contains listJobFinalizerToken = true)
    (hexp : expiryPast c lj = false)
    (hres : listJobResolveItems c ns lj = .ok list)
    (hcm : aget c.configMaps (ns, childCMName name) = some cmv)
    (hjob : aget c.jobs (ns, name) = some jv) :
    reconcileListJob c ns name = (c, .ok false lj.spec.deleteAfter) := by
  simp only [reconcileListJob, hget, reconcileListJobLoaded, hdts, Option.isSome_none,
    Bool.false_eq_true, if_false, hfin, Bool.not_true, hexp]
  simp only [materializeListJob, hres, hcm, hjob]

/-- C4: reconciling the same unchanged live ListJob twice produces exactly
one Job and one ConfigMap.  Starting from a state with neither owned object,
the first pass creates both; the second pass observes both creates as
"already exists", swallows the conflict, changes nothing, and returns the
same error-free outcome. -/
theorem c4_theorem (c : Cluster) (ns name : String) (lj : ListJobObj) (list : List String)
    (hget : aget c.listJobs (ns, name) = some lj)
    (hdts : lj.deletionTimestamp = none)
    (hfin : lj.finalizers.contains listJobFinalizerToken = true)
    (hexp : expiryPast c lj = false)
    (hres : listJobResolveItems c ns lj = .ok list)
    (hnocm : aget c.configMaps (ns, childCMName name) = none)
    (hnojob : aget c.jobs (ns, name) = none) :
    (reconcileListJob c ns name).2 = .ok false lj.spec.deleteAfter ∧
    aget (reconcileListJob c ns name).1.jobs (ns, name) = some (buildListJobJob lj list) ∧
    countKey (reconcileListJob c ns name).1.jobs (ns, name) = 1 ∧
    countKey (reconcileListJob c ns name).1.configMaps (ns, childCMName name) = 1 ∧
    reconcileListJob (reconcileListJob c ns name).1 ns name =
      ((reconcileListJob c ns name).1, .ok false lj.spec.deleteAfter) := by
  have hrec : reconcileListJob c ns name =
      ({ c with
          configMaps := aput c.configMaps (ns, childCMName name)
            ⟨some c.nextRV, listJobRenderData list⟩
          nextRV := c.nextRV + 1
          jobs := aput c.jobs (ns, name) (buildListJobJob lj list) },
        .ok false lj.spec.deleteAfter) := by
    simp only [reconcileListJob, hget, reconcileListJobLoaded, hdts, Option.isSome_none,
      Bool.false_eq_true, if_false, hfin, Bool.not_true, hexp]
    simp only [materializeListJob, hres, hnocm, hnojob]
  rw [hrec]
  have hres1 : listJobResolveItems
      { c with
        configMaps := aput c.configMaps (ns, childCMName name)
          ⟨some c.nextRV, listJobRenderData list⟩
        nextRV := c.nextRV + 1
        jobs := aput c.jobs (ns, name) (buildListJobJob lj list) } ns lj = .ok list := by
    by_cases hsl : lj.spec.staticList.length > 0
    · simp only [listJobResolveItems, hsl, if_true] at hres ⊢
      exact hres
    · simp only [listJobResolveItems, hsl, if_false] at hres ⊢
      by_cases heq : ((ns, lj.spec.listSourceRef) : Key) = (ns, childCMName name)
      · rw [heq, hnocm] at hres
        exact absurd hres (by simp)
      · rw [show aget (aput c.configMaps (ns, childCMName name)
            ⟨some c.nextRV, listJobRenderData list⟩) (ns, lj.spec.listSourceRef) =
            aget c.configMaps (ns, lj.spec.listSourceRef) from
          aget_aput_ne _ _ _ _ heq]
        exact hres
  exact ⟨rfl, aget_aput_self _ _ _,
    countKey_aput_of_aget_none c.jobs (ns, name) _ hnojob,
    countKey_aput_of_aget_none c.configMaps (ns, childCMName name) _ hnocm,
    reconcileListJob_noop _ ns name lj list _ _ hget hdts hfin hexp hres1
      (aget_aput_self _ _ _) (aget_aput_self _ _ _)⟩

/-- A live ListJob with a static two-item list. -/
def c4ListJob : ListJobObj :=
  { creationTimestamp := 0
    deletionTimestamp := none
    finalizers := [listJobFinalizerToken]
    spec := { listSourceRef := "", staticList := ["x", "y"], parallelism := 2
              template := sampleTemplate
              ttlSecondsAfterFinished := none, deleteAfter := none } }

/-- A cluster holding only the live ListJob: nothing materialized yet. -/
def c4Cluster : Cluster :=
  { listJobs := [(("default", "lj"), c4ListJob)]
    listCronJobs := [], configMaps := [], jobs := [], cronJobs := []
    nextRV := 1, now := 0 }

/-- C4 witness: on the concrete live ListJob, after the first pass exactly
one Job and one ConfigMap exist and the second pass is a no-op without
error. -/
theorem c4_witness :
    countKey (reconcileListJob c4Cluster "default" "lj").1.jobs ("default", "lj") = 1 ∧
    countKey (reconcileListJob c4Cluster "default" "lj").1.configMaps
      ("default", childCMName "lj") = 1 ∧
    reconcileListJob (reconcileListJob c4Cluster "default" "lj").1 "default" "lj" =
      ((reconcileListJob c4Cluster "default" "lj").1, .ok false none) := by
  have h := c4_theorem c4Cluster "default" "lj" c4ListJob ["x", "y"]
    (by decide) (by decide) (by decide) (by decide) (by rfl) (by decide) (by decide)
  exact ⟨h.2.2.1, h.2.2.2.1, h.2.2.2.2⟩

/-- A live ListJob with static list `["a", "b", "c"]` and parallelism 2. -/
def c5ListJob : ListJobObj :=
  { creationTimestamp := 0
    deletionTimestamp := none
    finalizers := [listJobFinalizerToken]
    spec := { listSourceRef := "", staticList := ["a", "b", "c"], parallelism := 2
              template := { image := "busybox", command := ["echo"], envName := "ITEM" }
              ttlSecondsAfterFinished := none, deleteAfter := none } }

/-- A cluster holding only that ListJob. -/
def c5Cluster : Cluster :=
  { listJobs := [(("default", "lj"), c5ListJob)]
    listCronJobs := [], configMaps := [], jobs := [], cronJobs := []
    nextRV := 1, now := 0 }

/-- C5: reconciling a ListJob with static list `["a", "b", "c"]` and
parallelism 2 creates a Job with completions = 3 (the item count),
parallelism = 2 (the configured value), and indexed completion mode. -/
theorem c5_theorem :
    (aget (reconcileListJob c5Cluster "default" "lj").1.jobs ("default", "lj")).map
      (fun j => (j.completions, j.parallelism, j.completionMode)) =
    some (3, 2, CompletionMode.indexed) := by
  decide

/-- C6: (watch mapping) a changed ConfigMap is mapped back to exactly the
ListCronJobs in the same namespace whose `listSourceRef` names it; and
(re-render) reconciling such a ListCronJob — ledger present with a
non-empty `items` value, per-job ConfigMap already rendered — updates the
per-job ConfigMap's data to the newly resolved items, without error and
without touching the ListCronJob itself. -/
theorem c6_theorem (c : Cluster) (ns name src s : String) (lcj : ListCronJobObj)
    (ledgerCm oldCm : ConfigMapObj)
    (hget : aget c.listCronJobs (ns, name) = some lcj)
    (hdts : lcj.deletionTimestamp = none)
    (hfin : lcj.finalizers.contains listCronJobFinalizerToken = true)
    (hsl : lcj.spec.staticList = [])
    (href : lcj.spec.listSourceRef = src)
    (hsrc : src ≠ "")
    (hledger : aget c.configMaps (ns, src) = some ledgerCm)
    (hitems : lookupData ledgerCm.data "items" = s)
    (hs : s ≠ "")
    (hold : aget c.configMaps (ns, childCMName name) = some oldCm) :
    (∀ k : Key, k ∈ findObjectsForConfigMap c ns src ↔
      ∃ v, (k, v) ∈ c.listCronJobs ∧ k.1 = ns ∧ v.spec.listSourceRef = src) ∧
    (reconcileListCronJob c ns name).2 = .ok false none ∧
    aget (reconcileListCronJob c ns name).1.configMaps (ns, childCMName name) =
      some ⟨some c.nextRV, listCronJobRenderData (listCronJobLedgerItems s)⟩ ∧
    aget (reconcileListCronJob c ns name).1.listCronJobs (ns, name) = some lcj := by
  have hmap : ∀ k : Key, k ∈ findObjectsForConfigMap c ns src ↔
      ∃ v, (k, v) ∈ c.listCronJobs ∧ k.1 = ns ∧ v.spec.listSourceRef = src := by
    intro k
    simp only [findObjectsForConfigMap, List.mem_map, List.mem_filter, decide_eq_true_eq]
    constructor
    · rintro ⟨⟨kk, vv⟩, hp, rfl⟩
      exact ⟨vv, hp.1.1, hp.1.2, hp.2⟩
    · rintro ⟨v, hmem, hns, hr⟩
      exact ⟨(k, v), ⟨⟨hmem, hns⟩, hr⟩, rfl⟩
  have hresolve : listCronJobResolveItemsOf c ns lcj = .ok (listCronJobLedgerItems s) := by
    simp only [listCronJobResolveItemsOf, hsl, href, List.length_nil, gt_iff_lt,
      Nat.lt_irrefl, if_false]
    rw [if_pos hsrc, hledger]
    simp only [hitems]
    rw [if_neg hs]
  simp only [reconcileListCronJob, hget, reconcileListCronJobLoaded, hdts, Option.isSome_none,
    Bool.false_eq_true, if_false, hfin, Bool.not_true]
  simp only [materializeListCronJob, hresolve]
  simp only [upsertJobConfigMap, hold]
  cases hcj : aget c.cronJobs (ns, name) with
  | none =>
    simp only [upsertCronJob, hcj]
    exact ⟨hmap, trivial, aget_aput_self _ _ _, hget⟩
  | some existing =>
    simp only [upsertCronJob, hcj]
    exact ⟨hmap, trivial, aget_aput_self _ _ _, hget⟩

/-- A live ListCronJob referencing the ledger ConfigMap `src`. -/
def c6LCJ : ListCronJobObj :=
  { deletionTimestamp := none
    finalizers := [listCronJobFinalizerToken]
    spec := { listSourceRef := "src", staticList := [], parallelism := 1
              template := sampleTemplate
              ttlSecondsAfterFinished := none
              schedule := "* * * * *", concurrencyPolicy := "Allow"
              startingDeadlineSeconds := none, successfulJobsHistoryLimit := none
              failedJobsHistoryLimit := none, suspend := none } }

/-- A cluster with the ListCronJob, a freshly updated ledger holding two
items, and a stale per-job ConfigMap. -/
def c6Cluster : Cluster :=
  { listJobs := []
    listCronJobs := [(("default", "cj"), c6LCJ)]
    configMaps := [(("default", "src"), { rv := some 3, data := [("items", "x\ny")] }),
                   (("default", "cj-list"), { rv := some 2, data := [("items", "old")] })]
    jobs := [], cronJobs := [], nextRV := 7, now := 0 }

/-- C6 witness: the changed ledger maps back to the concrete ListCronJob,
and reconciling it rewrites the per-job ConfigMap to the new items. -/
theorem c6_witness :
    (("default", "cj") : Key) ∈ findObjectsForConfigMap c6Cluster "default" "src" ∧
    aget (reconcileListCronJob c6Cluster "default" "cj").1.configMaps
        ("default", childCMName "cj") =
      some ⟨some 7, listCronJobRenderData (listCronJobLedgerItems "x\ny")⟩ := by
  have h := c6_theorem c6Cluster "default" "cj" "src" "x\ny" c6LCJ
    { rv := some 3, data := [("items", "x\ny")] }
    { rv := some 2, data := [("items", "old")] }
    (by decide) (by decide) (by decide) (by decide) (by decide) (by decide)
    (by decide) (by decide) (by decide) (by decide)
  exact ⟨(h.1 ("default", "cj")).mpr ⟨c6LCJ, by decide, rfl, by decide⟩, h.2.2.1⟩

/-- A pre-existing CronJob for the steady-state scenarios. -/
def c7CronJob : CronJobObj :=
  buildCronJob "cj" c6LCJ ["old"]

/-- Steady state, first ledger content: the ListCronJob, its ledger (items
`x` and `y`), its already-rendered per-job ConfigMap and its CronJob all
exist. -/
def c7ClusterX : Cluster :=
  { listJobs := []
    listCronJobs := [(("default", "cj"), c6LCJ)]
    configMaps := [(("default", "src"), { rv := some 3, data := [("items", "x\ny")] }),
                   (("default", "cj-list"), { rv := some 2, data := [("items", "old")] })]
    jobs := []
    cronJobs := [(("default", "cj"), c7CronJob)]
    nextRV := 7, now := 0 }

/-- Same steady state with different ledger content (single item `z`). -/
def c7ClusterY : Cluster :=
  { listJobs := []
    listCronJobs := [(("default", "cj"), c6LCJ)]
    configMaps := [(("default", "src"), { rv := some 3, data := [("items", "z")] }),
                   (("default", "cj-list"), { rv := some 2, data := [("items", "old")] })]
    jobs := []
    cronJobs := [(("default", "cj"), c7CronJob)]
    nextRV := 7, now := 0 }

/-- C7 evaluation at the failing input: when the per-job ConfigMap already
exists, the update path stamps `configmap-version` with the ResourceVersion
of the freshly built in-memory ConfigMap object — which the AlreadyExists
create never populated — so the annotation is the empty string, not the
rendered ConfigMap's current resource version (7 after the update).  Two
reconciles observing different ledger contents render different ConfigMap
data yet stamp identical annotations, so no new template revision is
forced. -/
theorem c7_code_evaluation :
    ((aget (reconcileListCronJob c7ClusterX "default" "cj").1.cronJobs ("default", "cj")).map
      (fun cj => cj.jobTemplate.templateAnnotations) = some [("configmap-version", "")]) ∧
    ((aget (reconcileListCronJob c7ClusterY "default" "cj").1.cronJobs ("default", "cj")).map
      (fun cj => cj.jobTemplate.templateAnnotations) = some [("configmap-version", "")]) ∧
    ((aget (reconcileListCronJob c7ClusterX "default" "cj").1.configMaps
        ("default", "cj-list")).map (fun cm => cm.rv) = some (some 7)) ∧
    ((aget (reconcileListCronJob c7ClusterX "default" "cj").1.configMaps
        ("default", "cj-list")).map (fun cm => cm.data) ≠
      (aget (reconcileListCronJob c7ClusterY "default" "cj").1.configMaps
        ("default", "cj-list")).map (fun cm => cm.data)) ∧
    rvString (some 7) ≠ "" := by
  decide

/-- C8: for every API source configuration whose path expression is
unparsable, resolution against any 2xx response fails with the non-retryable
`configInvalid` error reporting the parse failure (never the retryable
`fetchFailed` kind), and no items are returned. -/
theorem c8_theorem (cfg : APIConfig) (resp : HTTPResponse)
    (h2xx : 200 ≤ resp.status ∧ resp.status < 300)
    (hbad : parseJSONPath cfg.jsonPath = none) :
    getItemsFromAPI cfg resp =
      .error (.configInvalid ("failed to parse JSONPath expression: " ++ cfg.jsonPath)) ∧
    (∀ e, getItemsFromAPI cfg resp = .error e → e.isFetchFailed = false) ∧
    (∀ items, getItemsFromAPI cfg resp ≠ .ok items) := by
  have hcond : ¬ (resp.status < 200 ∨ 300 ≤ resp.status) := by
    omega
  have hmain : getItemsFromAPI cfg resp =
      .error (.configInvalid ("failed to parse JSONPath expression: " ++ cfg.jsonPath)) := by
    simp only [getItemsFromAPI]
    rw [if_neg hcond, hbad]
  refine ⟨hmain, ?_, ?_⟩
  · intro e he
    rw [hmain] at he
    cases he
    rfl
  · intro items hitems
    rw [hmain] at hitems
    cases hitems

/-- The API source of the unit test with the invalid JSONPath expression. -/
def c8Config : APIConfig :=
  { url := "http://api.example.com", headers := [], jsonPath := "$.invalid.[*", auth := none }

/-- A successful (200) response carrying a JSON body. -/
def c8Response : HTTPResponse :=
  { status := 200, body := .obj [("items", .arr [.str "item1", .str "item2"])] }

/-- C8 witness: the concrete unparsable expression `$.invalid.[*` yields the
configInvalid parse error on a 200 response. -/
theorem c8_witness :
    getItemsFromAPI c8Config c8Response =
      .error (.configInvalid ("failed to parse JSONPath expression: " ++ c8Config.jsonPath)) :=
  (c8_theorem c8Config c8Response ⟨by decide, by decide⟩ (by decide)).1

/-- A ListCronJob carrying no source information: empty static list and
empty ledger reference. -/
def c9LCJ : ListCronJobObj :=
  { deletionTimestamp := none
    finalizers := [listCronJobFinalizerToken]
    spec := { listSourceRef := "", staticList := [], parallelism := 1
              template := sampleTemplate
              ttlSecondsAfterFinished := none
              schedule := "* * * * *", concurrencyPolicy := "Allow"
              startingDeadlineSeconds := none, successfulJobsHistoryLimit := none
              failedJobsHistoryLimit := none, suspend := none } }

/-- A cluster holding only that sourceless ListCronJob. -/
def c9Cluster : Cluster :=
  { listJobs := [], listCronJobs := [(("default", "cj"), c9LCJ)]
    configMaps := [], jobs := [], cronJobs := [], nextRV := 1, now := 0 }

/-- C9 counterexample: reconciling a FanOutSchedule with no source
information returns a non-nil error — which controller-runtime requeues
with backoff, i.e. retries indefinitely — and leaves the cluster, including
the owning object and its status, completely untouched: no terminal status
error is surfaced on the owning object, contradicting the claim at this
input. -/
theorem c9_counterexample :
    (reconcileListCronJob c9Cluster "default" "cj").2 =
      .err "either StaticList or ListSourceRef must be specified" ∧
    (reconcileListCronJob c9Cluster "default" "cj").2.isErr = true ∧
    (reconcileListCronJob c9Cluster "default" "cj").1 = c9Cluster := by
  decide

/-- C9 (amended): a FanOutSchedule (ListCronJob) whose spec carries no
source information makes reconcile return the fixed spec error, and a
FanOutJob (ListJob) with no inline list and an unresolvable ledger
reference makes reconcile return the ledger-fetch error; in both cases the
cluster state (and hence the owning object, which has no status written
anywhere in either controller) is unchanged, and the returned error means
controller-runtime requeues with backoff — the condition is retried
indefinitely until the spec changes, with no terminal status surfaced. -/
theorem c9_theorem :
    (∀ (c : Cluster) (ns name : String) (lcj : ListCronJobObj),
      aget c.listCronJobs (ns, name) = some lcj →
      lcj.deletionTimestamp = none →
      lcj.finalizers.contains listCronJobFinalizerToken = true →
      lcj.spec.staticList = [] →
      lcj.spec.listSourceRef = "" →
      reconcileListCronJob c ns name =
        (c, .err "either StaticList or ListSourceRef must be specified")) ∧
    (∀ (c : Cluster) (ns name : String) (lj : ListJobObj),
      aget c.listJobs (ns, name) = some lj →
      lj.deletionTimestamp = none →
      lj.finalizers.contains listJobFinalizerToken = true →
      expiryPast c lj = false →
      lj.spec.staticList = [] →
      aget c.configMaps (ns, lj.spec.listSourceRef) = none →
      reconcileListJob c ns name = (c, .err "Failed to fetch ListSource ConfigMap")) := by
  constructor
  · intro c ns name lcj hget hdts hfin hsl href
    have hres : listCronJobResolveItemsOf c ns lcj =
        .error "either StaticList or ListSourceRef must be specified" := by
      simp [listCronJobResolveItemsOf, hsl, href]
    simp only [reconcileListCronJob, hget, reconcileListCronJobLoaded, hdts,
      Option.isSome_none, Bool.false_eq_true, if_false, hfin, Bool.not_true]
    simp only [materializeListCronJob, hres]
  · intro c ns name lj hget hdts hfin hexp hsl hnone
    have hres : listJobResolveItems c ns lj =
        .error "Failed to fetch ListSource ConfigMap" := by
      simp [listJobResolveItems, hsl, hnone]
    simp only [reconcileListJob, hget, reconcileListJobLoaded, hdts,
      Option.isSome_none, Bool.false_eq_true, if_false, hfin, Bool.not_true, hexp]
    simp only [materializeListJob, hres]

/-- A ListJob with no inline list whose ledger reference is empty (no
ConfigMap of that name exists). -/
def c9ListJob : ListJobObj :=
  { creationTimestamp := 0
    deletionTimestamp := none
    finalizers := [listJobFinalizerToken]
    spec := { listSourceRef := "", staticList := [], parallelism := 1
              template := sampleTemplate
              ttlSecondsAfterFinished := none, deleteAfter := none } }

/-- A cluster holding only that sourceless ListJob. -/
def c9JCluster : Cluster :=
  { listJobs := [(("default", "lj"), c9ListJob)], listCronJobs := []
    configMaps := [], jobs := [], cronJobs := [], nextRV := 1, now := 0 }

/-- C9 witness: both amended statements instantiated on the concrete
sourceless objects. -/
theorem c9_witness :
    reconcileListCronJob c9Cluster "default" "cj" =
      (c9Cluster, .err "either StaticList or ListSourceRef must be specified") ∧
    reconcileListJob c9JCluster "default" "lj" =
      (c9JCluster, .err "Failed to fetch ListSource ConfigMap") :=
  ⟨c9_theorem.1 c9Cluster "default" "cj" c9LCJ
      (by decide) (by decide) (by decide) (by decide) (by decide),
    c9_theorem.2 c9JCluster "default" "lj" c9ListJob
      (by decide) (by decide) (by decide) (by decide) (by decide) (by decide)⟩

/-- C10: a ListJob with no inline static list whose referenced ledger
ConfigMap exists but holds an empty `items` string reconciles without
error: splitting the empty string on commas yields the one-element list
containing the empty string, so the created Job has completions = 1 and its
single resolved item is the empty string. -/
theorem c10_theorem (c : Cluster) (ns name : String) (lj : ListJobObj)
    (cm : ConfigMapObj)
    (hget : aget c.listJobs (ns, name) = some lj)
    (hdts : lj.deletionTimestamp = none)
    (hfin : lj.finalizers.contains listJobFinalizerToken = true)
    (hexp : expiryPast c lj = false)
    (hsl : lj.spec.staticList = [])
    (hcm : aget c.configMaps (ns, lj.spec.listSourceRef) = some cm)
    (hempty : lookupData cm.data "items" = "")
    (hnojob : aget c.jobs (ns, name) = none) :
    listJobLedgerItems "" = [""] ∧
    (reconcileListJob c ns name).2 = .ok false lj.spec.deleteAfter ∧
    aget (reconcileListJob c ns name).1.jobs (ns, name) =
      some (buildListJobJob lj [""]) ∧
    (buildListJobJob lj [""]).completions = 1 := by
  have hres : listJobResolveItems c ns lj = .ok [""] := by
    simp only [listJobResolveItems, hsl, List.length_nil, gt_iff_lt, Nat.lt_irrefl,
      if_false, hcm, hempty]
    rfl
  simp only [reconcileListJob, hget, reconcileListJobLoaded, hdts, Option.isSome_none,
    Bool.false_eq_true, if_false, hfin, Bool.not_true, hexp]
  simp only [materializeListJob, hres]
  cases hcmc : aget c.configMaps (ns, childCMName name) with
  | none =>
    simp only [hnojob]
    exact ⟨by trivial, by trivial, aget_aput_self _ _ _, by trivial⟩
  | some old =>
    simp only [hnojob]
    exact ⟨by trivial, by trivial, aget_aput_self _ _ _, by trivial⟩

/-- A ListJob whose ledger reference points at the empty-items ConfigMap. -/
def c10ListJob : ListJobObj :=
  { creationTimestamp := 0
    deletionTimestamp := none
    finalizers := [listJobFinalizerToken]
    spec := { listSourceRef := "src", staticList := [], parallelism := 1
              template := sampleTemplate
              ttlSecondsAfterFinished := none, deleteAfter := none } }

/-- A cluster with the ListJob and a ledger whose `items` value is empty. -/
def c10Cluster : Cluster :=
  { listJobs := [(("default", "lj"), c10ListJob)], listCronJobs := []
    configMaps := [(("default", "src"), { rv := some 1, data := [("items", "")] })]
    jobs := [], cronJobs := [], nextRV := 2, now := 0 }

/-- C10 witness: the concrete empty-ledger ListJob reconciles without error
into a Job with completions = 1. -/
theorem c10_witness :
    (reconcileListJob c10Cluster "default" "lj").2 = .ok false none ∧
    (aget (reconcileListJob c10Cluster "default" "lj").1.jobs ("default", "lj")).map
      (fun j => j.completions) = some 1 := by
  have h := c10_theorem c10Cluster "default" "lj" c10ListJob
    { rv := some 1, data := [("items", "")] }
    (by decide) (by decide) (by decide) (by decide) (by decide) (by decide)
    (by decide) (by decide)
  refine ⟨h.2.1, ?_⟩
  rw [h.2.2.1]
  exact congrArg some h.2.2.2

end Parallax
